import Mathlib

/-!
Shallow embedding of parts of the lc0 chess engine
(`src/engine.cc`, `src/mcts/timemgr/timemgr.h`, `src/neural/loader.cc`,
`src/lc0ctl/lc0ctl_main.cc`, `src/neural/network_blas.cc`)
together with proofs of claims about its specification.

Conventions: machine integers are modelled as `Int`/`Nat` (no overflow is
relevant to the claims below), C++ `std::optional`/`unique_ptr` become
`Option`, exceptions become `Except`, and wall-clock timestamps are opaque
`Nat` values supplied by the caller at each call site.
-/

namespace Lc0

/-! ## Time manager hints (`src/mcts/timemgr/timemgr.h`, lines 48-69)

`TimeManagerHints` keeps two running estimates.  The private fields
`remaining_time_ms_` and `remaining_playouts_` are `int64_t`; we model both
as `Int`.  `Reset()` is declared in the header but defined in a file that is
not part of the sources, so all theorems quantify over the initial state. -/

structure TimeManagerHints where
  remaining_time_ms : Int
  remaining_playouts : Int
deriving DecidableEq, Repr

namespace TimeManagerHints

/-- `void UpdateEstimatedRemainingTimeMs(int64_t v) { if (v < remaining_time_ms_) remaining_time_ms_ = v; }` -/
def UpdateEstimatedRemainingTimeMs (h : TimeManagerHints) (v : Int) : TimeManagerHints :=
  if v < h.remaining_time_ms then { h with remaining_time_ms := v } else h

/-- `int64_t GetEstimatedRemainingTimeMs() const { return remaining_time_ms_; }` -/
def GetEstimatedRemainingTimeMs (h : TimeManagerHints) : Int :=
  h.remaining_time_ms

/-- `void UpdateEstimatedRemainingRemainingPlayouts(int64_t v) { if (v < remaining_playouts_) remaining_playouts_ = v; }` -/
def UpdateEstimatedRemainingRemainingPlayouts (h : TimeManagerHints) (v : Int) :
    TimeManagerHints :=
  if v < h.remaining_playouts then { h with remaining_playouts := v } else h

/-- `int64_t GetEstimatedRemainingPlayouts() const { return std::max(1L, remaining_playouts_); }` -/
def GetEstimatedRemainingPlayouts (h : TimeManagerHints) : Int :=
  max 1 h.remaining_playouts

/-- A finite sequence of `UpdateEstimatedRemainingTimeMs` calls. -/
def updateTimeMany (h : TimeManagerHints) (vs : List Int) : TimeManagerHints :=
  vs.foldl UpdateEstimatedRemainingTimeMs h

/-- A finite sequence of `UpdateEstimatedRemainingRemainingPlayouts` calls. -/
def updatePlayoutsMany (h : TimeManagerHints) (vs : List Int) : TimeManagerHints :=
  vs.foldl UpdateEstimatedRemainingRemainingPlayouts h
end TimeManagerHints

end Lc0

namespace Lc0

/-! ## Engine controller (`src/engine.cc`)

The controller's observable state.  External collaborators whose code is not
part of the sources (the `NodeTree`, the Syzygy tablebase loader and the
network factory) are abstracted into an `EngineEnv` of oracle functions over
an arbitrary tree type; wall-clock reads (`std::chrono::steady_clock::now()`)
become an explicit `now : Nat` argument of the calls that perform them.
Networks, network configurations and tablebase handles are identified by
`Nat` tags, cache entries by their `Nat` fingerprint. -/

/-- The stashed `CurrentPosition{fen, moves}` from `engine.h`. -/
structure CurrentPosition where
  fen : String
  moves : List String
deriving DecidableEq, Repr

/-- `GoParams` (declared in `src/chess/uciloop.h`, which is not among the
sources).  Modelled from the spec: "GoParams { wtime, btime, winc, binc,
movestogo, movetime, infinite, ponder, nodes, depth }" plus the
`searchmoves` list of the UCI surface. -/
structure GoParams where
  wtime : Option Int := none
  btime : Option Int := none
  winc : Option Int := none
  binc : Option Int := none
  movestogo : Option Int := none
  movetime : Option Int := none
  nodes : Option Int := none
  depth : Option Int := none
  infinite : Bool := false
  ponder : Bool := false
  searchmoves : List String := []
deriving DecidableEq, Repr

/-- The evaluation cache, reduced to what the controller observes: its
capacity and the list of stored fingerprints. -/
structure NNCache where
  capacity : Nat
  entries : List Nat
deriving DecidableEq, Repr

namespace NNCache

/-- Modelled from the spec: the cache implementation is not among the
sources; "clear()" drops all entries. -/
def Clear (c : NNCache) : NNCache := { c with entries := [] }

/-- Modelled from the spec: the cache implementation is not among the
sources; "set_capacity(n)" records the new capacity ("existing entries are
dropped on next insert", so the call itself only sets the capacity). -/
def SetCapacity (c : NNCache) (n : Nat) : NNCache := { c with capacity := n }

end NNCache

/-- The arguments `Search` is constructed from in `Go` that the claims
observe (`engine.cc` lines 248-252). -/
structure SearchSpec where
  searchmoves : List String
  startTime : Nat
  infinite : Bool
  threads : Nat
deriving DecidableEq, Repr

/-- Calls the controller makes into collaborators, recorded as a trace. -/
inductive EngineEvent where
  | timeResetGame
  | resetToPosition (fen : String) (moves : List String)
deriving DecidableEq, Repr

/-- Oracles for collaborators whose code is not among the sources:
`NodeTree` construction and `ResetToPosition` (returning the new tree and
the `same_game` flag), `SyzygyTablebase::init` (`none` on failure) and
`NetworkFactory::LoadNetwork`. -/
structure EngineEnv (Tree : Type) where
  newTree : Tree
  resetToPosition : Tree → String → List String → Tree × Bool
  syzygyInit : String → Option Nat
  loadNetwork : Nat → Nat

/-- The UCI option values the controller reads, plus the registered-but-new
`Ponder` flag.  `backendConfig` stands for
`NetworkFactory::BackendConfiguration(options_)`. -/
structure EngineOptions where
  threads : Nat
  nncacheSize : Nat
  syzygyPaths : String
  ponder : Bool
  chess960 : Bool
  backendConfig : Nat
deriving DecidableEq, Repr

/-- `EngineController`'s mutable state (`engine.h` fields used by
`engine.cc`): `move_start_time_`, `cache_`, `search_`, `tree_`, the time
manager's `time_spared_ms_` bank, `current_position_`, `go_params_`,
`network_` with `network_configuration_`, and `tb_paths_`/`syzygy_tb_`;
plus the trace of collaborator calls. -/
structure EngineState (Tree : Type) where
  moveStartTime : Nat
  cache : NNCache
  search : Option SearchSpec
  tree : Option Tree
  timeSparedMs : Int
  currentPosition : Option CurrentPosition
  goParams : GoParams
  network : Option Nat
  networkConfig : Option Nat
  tbPaths : String
  syzygyTb : Option Nat
  events : List EngineEvent

variable {Tree : Type}

/-- `EngineController::UpdateFromUciOptions` (`engine.cc` lines 98-124):
reload Syzygy tablebases when the paths option changed, reload the network
when its backend configuration changed, and set the cache capacity. -/
def UpdateFromUciOptions (env : EngineEnv Tree) (opts : EngineOptions)
    (s : EngineState Tree) : EngineState Tree :=
  let s :=
    if opts.syzygyPaths ≠ "" ∧ opts.syzygyPaths ≠ s.tbPaths then
      match env.syzygyInit opts.syzygyPaths with
      | none => { s with syzygyTb := none }
      | some tb => { s with syzygyTb := some tb, tbPaths := opts.syzygyPaths }
    else s
  let s :=
    if s.networkConfig ≠ some opts.backendConfig then
      { s with network := some (env.loadNetwork opts.backendConfig)
             , networkConfig := some opts.backendConfig }
    else s
  { s with cache := s.cache.SetCapacity opts.nncacheSize }

/-- `EngineController::NewGame` (`engine.cc` lines 133-144): reset the move
timer, clear the cache, drop the search and the tree, reset the time
manager (modelled from the spec: "ResetGame() zeros the bank", its body not
being among the sources), clear the stashed position, then
`UpdateFromUciOptions`. -/
def NewGame (env : EngineEnv Tree) (opts : EngineOptions) (now : Nat)
    (s : EngineState Tree) : EngineState Tree :=
  UpdateFromUciOptions env opts
    { s with moveStartTime := now
           , cache := s.cache.Clear
           , search := none
           , tree := none
           , timeSparedMs := 0
           , events := s.events ++ [.timeResetGame]
           , currentPosition := none }

/-- `EngineController::SetPosition` (`engine.cc` lines 146-154): restart the
move timer, stash the position, drop the current search. -/
def SetPosition (now : Nat) (fen : String) (moves_str : List String)
    (s : EngineState Tree) : EngineState Tree :=
  { s with moveStartTime := now
         , currentPosition := some ⟨fen, moves_str⟩
         , search := none }

/-- `EngineController::SetupPosition` (`engine.cc` lines 156-169): drop the
search, `UpdateFromUciOptions`, make a tree if there is none, then
`ResetToPosition`; `time_manager_->ResetGame()` exactly when it did not
return `same_game`. -/
def SetupPosition (env : EngineEnv Tree) (opts : EngineOptions) (fen : String)
    (moves_str : List String) (s : EngineState Tree) : EngineState Tree :=
  let s := { s with search := none }
  let s := UpdateFromUciOptions env opts s
  let tree0 := s.tree.getD env.newTree
  let r := env.resetToPosition tree0 fen moves_str
  let s := { s with tree := some r.1,
                    events := s.events ++ [.resetToPosition fen moves_str] }
  if r.2 then s
  else { s with timeSparedMs := 0, events := s.events ++ [.timeResetGame] }

/-- `ChessBoard::kStartposFen`. -/
def kStartposFen : String :=
  "rnbqkbnr/pppppppp/8/8/8/8/PPPPPPPP/RNBQKBNR w KQkq - 0 1"

/-- `EngineController::Go` (`engine.cc` lines 183-257), state part: store
`go_params_`; set up the position (popping the last stashed move when
pondering with a non-empty move list; falling back to the start position
when nothing is stashed and no tree exists), then construct the `Search`
with `params.infinite || params.ponder` as its infinite flag and the
current `move_start_time_`.  The callback wrapping of lines 202-244 is
modelled separately below. -/
def Go (env : EngineEnv Tree) (opts : EngineOptions) (params : GoParams)
    (s : EngineState Tree) : EngineState Tree :=
  let s := { s with goParams := params }
  let s :=
    match s.currentPosition with
    | some cp =>
      if params.ponder && !cp.moves.isEmpty then
        SetupPosition env opts cp.fen cp.moves.dropLast s
      else
        SetupPosition env opts cp.fen cp.moves s
    | none =>
      if s.tree.isNone then SetupPosition env opts kStartposFen [] s else s
  { s with search := some { searchmoves := params.searchmoves
                          , startTime := s.moveStartTime
                          , infinite := params.infinite || params.ponder
                          , threads := opts.threads } }

/-- `EngineController::PonderHit` (`engine.cc` lines 259-263): restart the
move timer, set `go_params_.ponder = false`, re-issue `Go`. -/
def PonderHit (env : EngineEnv Tree) (opts : EngineOptions) (now : Nat)
    (s : EngineState Tree) : EngineState Tree :=
  Go env opts { s.goParams with ponder := false } { s with moveStartTime := now }

/-- `EngineController::PopulateOptions` (`engine.cc` lines 79-95): the UCI
names registered, in registration order; the option sets populated by
collaborators whose code is not among the sources (`NetworkFactory`,
`SearchParams`, `ConfigFile`, time management) are parameters. -/
def PopulateOptions (networkOpts searchOpts configOpts timeOpts : List String) :
    List String :=
  networkOpts ++ ["Threads", "NNCacheSize"] ++ searchOpts ++
    ["SyzygyPath", "Ponder", "UCI_Chess960"] ++ configOpts ++ timeOpts

end Lc0

namespace Lc0

/-! ## Castling conversion and the `Go` callback wrappers
(`src/engine.cc` lines 171-181 and 228-244) -/

/-- Chess board operations consumed by `ConvertToLegacyCastling`.  The
`ChessBoard` implementation is not among the sources, so the operations are
oracles over arbitrary board and move types. -/
structure BoardOps (Board Move : Type) where
  flipped : Board → Bool
  mirrorMove : Move → Move
  getLegacyMove : Board → Move → Move
  applyMove : Board → Move → Board
  mirrorBoard : Board → Board

/-- `ConvertToLegacyCastling(ChessBoard pos, std::vector<Move>* moves)`
(`engine.cc` lines 171-181): each move is mirrored when the board is
flipped, remapped by `GetLegacyMove`, applied to the board, mirrored back
when the post-move board is flipped; the board is then mirrored before the
next move. -/
def ConvertToLegacyCastling {Board Move : Type} (ops : BoardOps Board Move) :
    Board → List Move → List Move
  | _, [] => []
  | pos, move :: rest =>
    let move := if ops.flipped pos then ops.mirrorMove move else move
    let move := ops.getLegacyMove pos move
    let pos := ops.applyMove pos move
    let move := if ops.flipped pos then ops.mirrorMove move else move
    move :: ConvertToLegacyCastling ops (ops.mirrorBoard pos) rest

/-- The `BestMoveInfo` fields the `Go` wrapper reads and writes. -/
structure BestMoveInfo (Move : Type) where
  bestmove : Move
  ponder : Move

/-- The `ThinkingInfo` field the `Go` wrapper rewrites (its remaining
fields pass through unchanged). -/
structure ThinkingInfo (Move : Type) where
  pv : List Move

/-- The `best_move_callback` wrapper `EngineController::Go` installs when
`UCI_Chess960` is false (`engine.cc` lines 228-238); with the option true
the callback is used as is. -/
def goBestMoveCallback {Board Move α : Type} (ops : BoardOps Board Move)
    (chess960 : Bool) (head_board : Board) (cb : BestMoveInfo Move → α) :
    BestMoveInfo Move → α :=
  if chess960 then cb
  else fun best_move =>
    let moves := ConvertToLegacyCastling ops head_board
      [best_move.bestmove, best_move.ponder]
    cb { bestmove := moves.getD 0 best_move.bestmove,
         ponder := moves.getD 1 best_move.ponder }

/-- The `info_callback` wrapper `EngineController::Go` installs when
`UCI_Chess960` is false (`engine.cc` lines 239-243). -/
def goInfoCallback {Board Move β : Type} (ops : BoardOps Board Move)
    (chess960 : Bool) (head_board : Board)
    (cb : List (ThinkingInfo Move) → β) : List (ThinkingInfo Move) → β :=
  if chess960 then cb
  else fun info =>
    cb (info.map fun x =>
      { x with pv := ConvertToLegacyCastling ops head_board x.pv })

/-- Two option dictionaries that agree on every option the controller reads
and may differ only in the value of the `Ponder` option. -/
def OptionsAgreeExceptPonder (o1 o2 : EngineOptions) : Prop :=
  o1.threads = o2.threads ∧ o1.nncacheSize = o2.nncacheSize ∧
  o1.syzygyPaths = o2.syzygyPaths ∧ o1.chess960 = o2.chess960 ∧
  o1.backendConfig = o2.backendConfig

/-! ## Weights loader (`src/neural/loader.cc`) and `lc0ctl` main
(`src/lc0ctl/lc0ctl_main.cc`) -/

/-- `const std::uint32_t kWeightMagic = 0x1c0;` -/
def kWeightMagic : Nat := 0x1c0

/-- The numeric tag of `pblczero::Format::LINEAR16` (the generated protobuf
enums are not among the sources; only comparison with the file's encoding
matters). -/
def kLinear16 : Nat := 1

/-- The always-compatible version signature `0x5c99973` from
`ParseWeightsProto`. -/
def kCompatibleVersion : Nat := 0x5c99973

/-- `net.min_version()`: major/minor/patch. -/
structure MinVersion where
  major : Nat
  minor : Nat
  patch : Nat
deriving DecidableEq, Repr

/-- The fields of the parsed `WeightsFile` message that `ParseWeightsProto`
reads.  `ParseFromString` belongs to the generated protobuf code, which is
not among the sources, so the parsed message accompanies the raw bytes as
input. -/
structure ParsedNet where
  magic : Nat
  min_version : MinVersion
  has_weights : Bool
  weights_encoding : Nat
deriving DecidableEq, Repr

/-- The outcome of `DecompressGzip`: the decompressed byte buffer (bytes as
0..255) together with the message parsing it yields. -/
structure GzBuffer where
  bytes : List Nat
  parsed : ParsedNet
deriving DecidableEq, Repr

/-- The `lczero::Exception`s of the load path, one tag per throw site. -/
inductive LoadError where
  | cannotRead
  | noEmbeddedFile
  | cannotProcess
  | gzReadError
  | tooSmall
  | noLongerSupported
  | textFormat
  | badHeader
  | versionRequired
  | unsupportedEncoding
deriving DecidableEq, Repr

/-- `ParseWeightsProto` (`loader.cc` lines 261-291): reject a wrong magic;
compute `net_ver` from the pre-fix `min_version`; apply
`FixOlderWeightsFile`; reject a too-new version unless it equals the
compatible signature; reject a file that has weights whose encoding is not
`LINEAR16`; otherwise return the (fixed) message.  `FixOlderWeightsFile`'s
effect on the tracked fields and `GetVersionInt` (`version.cc` is not among
the sources) are oracle parameters. -/
def ParseWeightsProto (fixOlderWeightsFile : ParsedNet → ParsedNet)
    (getVersionInt : MinVersion → Nat) (lc0Version : Nat) (net : ParsedNet) :
    Except LoadError ParsedNet :=
  if net.magic ≠ kWeightMagic then .error .badHeader
  else
    let net_ver := getVersionInt net.min_version
    let net2 := fixOlderWeightsFile net
    if net_ver ≠ kCompatibleVersion ∧ net_ver > lc0Version then
      .error .versionRequired
    else if net2.has_weights ∧ net2.weights_encoding ≠ kLinear16 then
      .error .unsupportedEncoding
    else .ok net2

/-- `LoadWeightsFromFile` (`loader.cc` lines 295-312).  The outcome of
`DecompressGzip` — an exception, or the decompressed buffer — is the
input; 49, 50 and 10 are the bytes of the characters 1, 2 and the newline
of the obsolete text headers. -/
def LoadWeightsFromFile (fixOlderWeightsFile : ParsedNet → ParsedNet)
    (getVersionInt : MinVersion → Nat) (lc0Version : Nat)
    (decompressed : Except LoadError GzBuffer) : Except LoadError ParsedNet :=
  match decompressed with
  | .error e => .error e
  | .ok buffer =>
    if buffer.bytes.length < 2 then .error .tooSmall
    else if buffer.bytes.getD 0 0 = 49 ∧ buffer.bytes.getD 1 0 = 10 then
      .error .noLongerSupported
    else if buffer.bytes.getD 0 0 = 50 ∧ buffer.bytes.getD 1 0 = 10 then
      .error .textFormat
    else
      ParseWeightsProto fixOlderWeightsFile getVersionInt lc0Version
        buffer.parsed

/-- `lc0ctl` `main` (`lc0ctl_main.cc` lines 38-69): an `lczero::Exception`
escaping the selected subcommand is caught, reported, and becomes exit
code 1; otherwise the exit code is 0. -/
def lc0ctlMain (body : Except LoadError Unit) : Nat :=
  match body with
  | .error _ => 1
  | .ok _ => 0

/-! ## BLAS network computation (`src/neural/network_blas.cc` lines 40-103)

The per-sample network math (`EncodePlanes`, `forward`, `Softmax`,
`DotProduct`, `tanh`) operates on IEEE floats and treats each sample of a
chunk independently; it is abstracted into two oracle functions taking a
sample to its policy vector and to its Q value. -/

structure BlasComputation (Plane Policy Q : Type) where
  max_batch_size : Nat
  planes : List Plane
  policy_data : List Policy
  q_value : List Q

namespace BlasComputation

/-- `BlasComputation(weights, max_batch_size)`: empty `planes_`,
`policy_data_` and `q_value_`. -/
def new {Plane Policy Q : Type} (max_batch_size : Nat) :
    BlasComputation Plane Policy Q :=
  { max_batch_size := max_batch_size, planes := [], policy_data := [],
    q_value := [] }

/-- `void AddInput(InputPlanes&& input) { planes_.emplace_back(input); }` -/
def AddInput {Plane Policy Q : Type} (c : BlasComputation Plane Policy Q)
    (input : Plane) : BlasComputation Plane Policy Q :=
  { c with planes := c.planes ++ [input] }

/-- `int GetBatchSize() const { return planes_.size(); }` -/
def GetBatchSize {Plane Policy Q : Type}
    (c : BlasComputation Plane Policy Q) : Nat :=
  c.planes.length

/-- A sequence of `AddInput` calls. -/
def addInputs {Plane Policy Q : Type} (c : BlasComputation Plane Policy Q)
    (inputs : List Plane) : BlasComputation Plane Policy Q :=
  inputs.foldl AddInput c

/-- The chunk loop of `ComputeBlocking`: take `largest_batch_size` pending
planes at a time and append each sample's policy and Q value in sample
order.  When `largest_batch_size = 0` while planes are pending, the C++
loop's `i += largest_batch_size` does not advance and the loop never
terminates; that case is modelled as `none`. -/
def computeChunks {Plane Policy Q : Type} (evalPolicy : Plane → Policy)
    (evalQ : Plane → Q) (largest_batch_size : Nat) (planes : List Plane) :
    Option (List Policy × List Q) :=
  match planes with
  | [] => some ([], [])
  | p :: ps =>
    if _h0 : largest_batch_size = 0 then none
    else
      match computeChunks evalPolicy evalQ largest_batch_size
          ((p :: ps).drop largest_batch_size) with
      | none => none
      | some (pols, qs) =>
        some (((p :: ps).take largest_batch_size).map evalPolicy ++ pols,
              ((p :: ps).take largest_batch_size).map evalQ ++ qs)
termination_by planes.length
decreasing_by
  simp only [List.length_drop, List.length_cons]
  omega

/-- `void ComputeBlocking()` (`network_blas.cc` lines 55-92):
`largest_batch_size = min(max_batch_size_, plane_count)`, then the chunk
loop. -/
def ComputeBlocking {Plane Policy Q : Type} (evalPolicy : Plane → Policy)
    (evalQ : Plane → Q) (c : BlasComputation Plane Policy Q) :
    Option (BlasComputation Plane Policy Q) :=
  let plane_count := c.planes.length
  let largest_batch_size := min c.max_batch_size plane_count
  match computeChunks evalPolicy evalQ largest_batch_size c.planes with
  | none => none
  | some (pols, qs) =>
    some { c with policy_data := c.policy_data ++ pols,
                  q_value := c.q_value ++ qs }

/-- `float GetQVal(int sample) const { return q_value_[sample]; }` -/
def GetQVal {Plane Policy Q : Type} (c : BlasComputation Plane Policy Q)
    (sample : Nat) : Option Q :=
  c.q_value[sample]?

/-- The `policy_data_[sample]` vector that `GetPVal(sample, move_id)`
indexes into. -/
def getPolicy {Plane Policy Q : Type} (c : BlasComputation Plane Policy Q)
    (sample : Nat) : Option Policy :=
  c.policy_data[sample]?

end BlasComputation

end Lc0

/-! ## Proofs -/


namespace Lc0

namespace TimeManagerHints

lemma updateTime_eq_min (h : TimeManagerHints) (v : Int) :
    UpdateEstimatedRemainingTimeMs h v =
      { h with remaining_time_ms := min h.remaining_time_ms v } := by
  unfold UpdateEstimatedRemainingTimeMs
  rcases lt_or_ge v h.remaining_time_ms with hlt | hge
  · simp [hlt, min_eq_right hlt.le]
  · simp [not_lt.mpr hge, min_eq_left hge]

lemma updateTimeMany_eq_foldl_min (h : TimeManagerHints) (vs : List Int) :
    updateTimeMany h vs =
      { h with remaining_time_ms := vs.foldl min h.remaining_time_ms } := by
  induction vs generalizing h with
  | nil => simp [updateTimeMany]
  | cons v vs ih =>
    simp only [updateTimeMany, List.foldl_cons] at *
    rw [updateTime_eq_min, ih]

lemma foldl_min_le_init (a : Int) (vs : List Int) : vs.foldl min a ≤ a := by
  induction vs generalizing a with
  | nil => simp
  | cons v vs ih => exact le_trans (ih (min a v)) (min_le_left a v)

end TimeManagerHints

end Lc0

/-- C4: after any finite sequence of `UpdateEstimatedRemainingTimeMs(v₁ … vₖ)`
calls, `GetEstimatedRemainingTimeMs` is the minimum of the initial estimate
and the arguments (characterised as a `min`-fold, the playout estimate being
untouched); consequently the estimate is non-increasing under further calls
and the update is idempotent and commutes with itself (order independence). -/
theorem hints_updateTime_is_running_min (h : Lc0.TimeManagerHints) (vs : List Int) :
    Lc0.TimeManagerHints.updateTimeMany h vs =
        { h with remaining_time_ms := vs.foldl min h.remaining_time_ms } ∧
      Lc0.TimeManagerHints.GetEstimatedRemainingTimeMs
          (Lc0.TimeManagerHints.updateTimeMany h vs) ≤
        Lc0.TimeManagerHints.GetEstimatedRemainingTimeMs h ∧
      (∀ ws, Lc0.TimeManagerHints.GetEstimatedRemainingTimeMs
          (Lc0.TimeManagerHints.updateTimeMany
            (Lc0.TimeManagerHints.updateTimeMany h vs) ws) ≤
        Lc0.TimeManagerHints.GetEstimatedRemainingTimeMs
          (Lc0.TimeManagerHints.updateTimeMany h vs)) ∧
      (∀ v, Lc0.TimeManagerHints.UpdateEstimatedRemainingTimeMs
          (Lc0.TimeManagerHints.UpdateEstimatedRemainingTimeMs h v) v =
        Lc0.TimeManagerHints.UpdateEstimatedRemainingTimeMs h v) ∧
      (∀ v w, Lc0.TimeManagerHints.UpdateEstimatedRemainingTimeMs
          (Lc0.TimeManagerHints.UpdateEstimatedRemainingTimeMs h v) w =
        Lc0.TimeManagerHints.UpdateEstimatedRemainingTimeMs
          (Lc0.TimeManagerHints.UpdateEstimatedRemainingTimeMs h w) v) := by
  refine ⟨Lc0.TimeManagerHints.updateTimeMany_eq_foldl_min h vs, ?_, ?_, ?_, ?_⟩
  · rw [Lc0.TimeManagerHints.updateTimeMany_eq_foldl_min]
    exact Lc0.TimeManagerHints.foldl_min_le_init _ vs
  · intro ws
    rw [Lc0.TimeManagerHints.updateTimeMany_eq_foldl_min
      (Lc0.TimeManagerHints.updateTimeMany h vs) ws]
    exact Lc0.TimeManagerHints.foldl_min_le_init _ ws
  · intro v
    simp [Lc0.TimeManagerHints.updateTime_eq_min, min_assoc]
  · intro v w
    simp only [Lc0.TimeManagerHints.updateTime_eq_min]
    simp [min_assoc, min_comm v w]

/-- C9: `GetEstimatedRemainingPlayouts` returns at least 1 after every
sequence of `UpdateEstimatedRemainingRemainingPlayouts` calls, however far
the stored estimate was driven down (even to zero or a negative value). -/
theorem hints_playouts_at_least_one (h : Lc0.TimeManagerHints) (vs : List Int) :
    1 ≤ Lc0.TimeManagerHints.GetEstimatedRemainingPlayouts
        (Lc0.TimeManagerHints.updatePlayoutsMany h vs) := by
  exact le_max_left 1 _

namespace Lc0

variable {Tree : Type}

lemma updateFromUciOptions_frame (env : EngineEnv Tree) (opts : EngineOptions)
    (s : EngineState Tree) :
    (UpdateFromUciOptions env opts s).moveStartTime = s.moveStartTime ∧
    (UpdateFromUciOptions env opts s).search = s.search ∧
    (UpdateFromUciOptions env opts s).tree = s.tree ∧
    (UpdateFromUciOptions env opts s).timeSparedMs = s.timeSparedMs ∧
    (UpdateFromUciOptions env opts s).currentPosition = s.currentPosition ∧
    (UpdateFromUciOptions env opts s).goParams = s.goParams ∧
    (UpdateFromUciOptions env opts s).events = s.events ∧
    (UpdateFromUciOptions env opts s).cache.entries = s.cache.entries := by
  unfold UpdateFromUciOptions NNCache.SetCapacity
  dsimp only
  refine ⟨?_, ?_, ?_, ?_, ?_, ?_, ?_, ?_⟩ <;>
    repeat' first | rfl | (dsimp only) | split

lemma setupPosition_frame (env : EngineEnv Tree) (opts : EngineOptions)
    (fen : String) (moves_str : List String) (s : EngineState Tree) :
    (SetupPosition env opts fen moves_str s).moveStartTime = s.moveStartTime ∧
    (SetupPosition env opts fen moves_str s).currentPosition = s.currentPosition ∧
    (SetupPosition env opts fen moves_str s).goParams = s.goParams := by
  obtain ⟨h1, -, h3, -, h5, h6, -, -⟩ :=
    updateFromUciOptions_frame env opts { s with search := none }
  unfold SetupPosition
  dsimp only
  refine ⟨?_, ?_, ?_⟩ <;> split <;> simp_all

lemma setupPosition_events (env : EngineEnv Tree) (opts : EngineOptions)
    (fen : String) (moves_str : List String) (s : EngineState Tree) :
    (SetupPosition env opts fen moves_str s).events =
      s.events ++ [EngineEvent.resetToPosition fen moves_str] ++
        (if (env.resetToPosition (s.tree.getD env.newTree) fen moves_str).2 then []
         else [EngineEvent.timeResetGame]) := by
  obtain ⟨-, -, h3, -, -, -, h7, -⟩ :=
    updateFromUciOptions_frame env opts { s with search := none }
  unfold SetupPosition
  dsimp only
  rw [h3]
  dsimp only
  split <;> simp_all

lemma setupPosition_tree (env : EngineEnv Tree) (opts : EngineOptions)
    (fen : String) (moves_str : List String) (s : EngineState Tree) :
    (SetupPosition env opts fen moves_str s).tree =
      some (env.resetToPosition (s.tree.getD env.newTree) fen moves_str).1 := by
  obtain ⟨-, -, h3, -, -, -, -, -⟩ :=
    updateFromUciOptions_frame env opts { s with search := none }
  unfold SetupPosition
  dsimp only
  rw [h3]
  dsimp only
  split <;> simp_all

lemma setupPosition_timeSpared (env : EngineEnv Tree) (opts : EngineOptions)
    (fen : String) (moves_str : List String) (s : EngineState Tree) :
    (SetupPosition env opts fen moves_str s).timeSparedMs =
      (if (env.resetToPosition (s.tree.getD env.newTree) fen moves_str).2 then
        s.timeSparedMs else 0) := by
  obtain ⟨-, -, h3, h4, -, -, -, -⟩ :=
    updateFromUciOptions_frame env opts { s with search := none }
  unfold SetupPosition
  dsimp only
  rw [h3]
  dsimp only
  split <;> simp_all

end Lc0

/-- C1: after `EngineController::NewGame` the evaluation cache is empty, the
current search and the game tree are destroyed, the stashed current
position is cleared, the time manager's per-game bank is zeroed, and
exactly one `TimeManager::ResetGame` call was made (the call trace grows by
exactly one `timeResetGame`). -/
theorem newGame_resets_everything {Tree : Type} (env : Lc0.EngineEnv Tree)
    (opts : Lc0.EngineOptions) (now : Nat) (s : Lc0.EngineState Tree) :
    (Lc0.NewGame env opts now s).cache.entries = [] ∧
    (Lc0.NewGame env opts now s).search = none ∧
    (Lc0.NewGame env opts now s).tree = none ∧
    (Lc0.NewGame env opts now s).currentPosition = none ∧
    (Lc0.NewGame env opts now s).timeSparedMs = 0 ∧
    (Lc0.NewGame env opts now s).events =
      s.events ++ [Lc0.EngineEvent.timeResetGame] := by
  unfold Lc0.NewGame
  obtain ⟨h1, h2, h3, h4, h5, h6, h7, h8⟩ :=
    Lc0.updateFromUciOptions_frame env opts
      { s with moveStartTime := now
             , cache := s.cache.Clear
             , search := none
             , tree := none
             , timeSparedMs := 0
             , events := s.events ++ [.timeResetGame]
             , currentPosition := none }
  simp_all [Lc0.NNCache.Clear]

/-- C3: in `EngineController::SetupPosition`, `TimeManager::ResetGame` is
called exactly when `NodeTree::ResetToPosition` did not report the same
game (the call trace gains a `timeResetGame` exactly in that case), and
when it did report the same game the spared-time bank is unchanged (while
in the other case it is zeroed by the reset). -/
theorem setupPosition_resetGame_iff_not_same_game {Tree : Type}
    (env : Lc0.EngineEnv Tree) (opts : Lc0.EngineOptions) (fen : String)
    (moves_str : List String) (s : Lc0.EngineState Tree) :
    ((Lc0.SetupPosition env opts fen moves_str s).events =
      s.events ++ [Lc0.EngineEvent.resetToPosition fen moves_str] ++
        (if (env.resetToPosition (s.tree.getD env.newTree) fen moves_str).2 then []
         else [Lc0.EngineEvent.timeResetGame])) ∧
    ((env.resetToPosition (s.tree.getD env.newTree) fen moves_str).2 = true →
      (Lc0.SetupPosition env opts fen moves_str s).timeSparedMs = s.timeSparedMs) ∧
    ((env.resetToPosition (s.tree.getD env.newTree) fen moves_str).2 = false →
      (Lc0.SetupPosition env opts fen moves_str s).timeSparedMs = 0) := by
  refine ⟨Lc0.setupPosition_events env opts fen moves_str s, ?_, ?_⟩ <;>
    intro hsame <;> rw [Lc0.setupPosition_timeSpared env opts fen moves_str s] <;>
    simp [hsame]

namespace Lc0

variable {Tree : Type}

lemma go_of_ponder (env : EngineEnv Tree) (opts : EngineOptions)
    (params : GoParams) (cp : CurrentPosition) (s : EngineState Tree)
    (hcp : s.currentPosition = some cp) (hne : cp.moves ≠ [])
    (hp : params.ponder = true) :
    Go env opts params s =
      { SetupPosition env opts cp.fen cp.moves.dropLast
          { s with goParams := params } with
        search := some
          { searchmoves := params.searchmoves,
            startTime := (SetupPosition env opts cp.fen cp.moves.dropLast
              { s with goParams := params }).moveStartTime,
            infinite := params.infinite || params.ponder,
            threads := opts.threads } } := by
  unfold Go
  dsimp only
  rw [hcp, hp]
  obtain ⟨fen, moves⟩ := cp
  cases moves with
  | nil => exact absurd rfl hne
  | cons m ms => rfl

lemma go_of_no_ponder (env : EngineEnv Tree) (opts : EngineOptions)
    (params : GoParams) (cp : CurrentPosition) (s : EngineState Tree)
    (hcp : s.currentPosition = some cp) (hp : params.ponder = false) :
    Go env opts params s =
      { SetupPosition env opts cp.fen cp.moves { s with goParams := params } with
        search := some
          { searchmoves := params.searchmoves,
            startTime := (SetupPosition env opts cp.fen cp.moves
              { s with goParams := params }).moveStartTime,
            infinite := params.infinite || params.ponder,
            threads := opts.threads } } := by
  unfold Go
  dsimp only
  rw [hcp, hp]
  rfl

lemma go_moveStartTime (env : EngineEnv Tree) (opts : EngineOptions)
    (params : GoParams) (s : EngineState Tree) :
    (Go env opts params s).moveStartTime = s.moveStartTime := by
  unfold Go
  dsimp only
  split
  · split
    · exact (setupPosition_frame _ _ _ _ _).1
    · exact (setupPosition_frame _ _ _ _ _).1
  · split
    · exact (setupPosition_frame _ _ _ _ _).1
    · rfl

lemma go_goParams (env : EngineEnv Tree) (opts : EngineOptions)
    (params : GoParams) (s : EngineState Tree) :
    (Go env opts params s).goParams = params := by
  unfold Go
  dsimp only
  split
  · split
    · exact (setupPosition_frame _ _ _ _ _).2.2
    · exact (setupPosition_frame _ _ _ _ _).2.2
  · split
    · exact (setupPosition_frame _ _ _ _ _).2.2
    · rfl

end Lc0

/-- C2: a `Go` with `ponder` true and a non-empty stashed move list sets up
the position from the stashed fen plus all stashed moves but the last, the
`Search` is created in infinite mode (`params.infinite || params.ponder`,
here true), and `PonderHit` restarts the move timer and re-issues the very
`go_params_` that were stored, with `ponder` cleared. -/
theorem go_ponder_pops_last_move {Tree : Type} (env : Lc0.EngineEnv Tree)
    (opts : Lc0.EngineOptions) (params : Lc0.GoParams)
    (cp : Lc0.CurrentPosition) (s : Lc0.EngineState Tree)
    (hcp : s.currentPosition = some cp) (hne : cp.moves ≠ [])
    (hp : params.ponder = true) :
    (Lc0.Go env opts params s).tree =
      some (env.resetToPosition (s.tree.getD env.newTree) cp.fen
        cp.moves.dropLast).1 ∧
    Lc0.EngineEvent.resetToPosition cp.fen cp.moves.dropLast ∈
      (Lc0.Go env opts params s).events ∧
    (Lc0.Go env opts params s).search =
      some { searchmoves := params.searchmoves, startTime := s.moveStartTime,
             infinite := true, threads := opts.threads } ∧
    (Lc0.Go env opts params s).goParams = params ∧
    (∀ now, Lc0.PonderHit env opts now (Lc0.Go env opts params s) =
      Lc0.Go env opts { params with ponder := false }
        { Lc0.Go env opts params s with moveStartTime := now }) ∧
    (∀ now,
      (Lc0.PonderHit env opts now (Lc0.Go env opts params s)).moveStartTime =
        now) := by
  have hshape := Lc0.go_of_ponder env opts params cp s hcp hne hp
  refine ⟨?_, ?_, ?_, Lc0.go_goParams env opts params s, ?_, ?_⟩
  · rw [hshape]
    dsimp only
    exact Lc0.setupPosition_tree env opts cp.fen cp.moves.dropLast _
  · rw [hshape]
    dsimp only
    rw [Lc0.setupPosition_events]
    simp
  · rw [hshape]
    dsimp only
    rw [(Lc0.setupPosition_frame env opts cp.fen cp.moves.dropLast
      { s with goParams := params }).1]
    simp [hp]
  · intro now
    unfold Lc0.PonderHit
    simp only [Lc0.go_goParams]
  · intro now
    unfold Lc0.PonderHit
    exact Lc0.go_moveStartTime env opts _ _

/-- Witness for C2 at a concrete instantiation: pondering on stashed moves
`["a", "b"]` searches the position after `["a"]` only, and the search is
infinite. -/
theorem go_ponder_pops_last_move_witness :
    (Lc0.Go (⟨0, fun t _ _ => (t + 1, false), fun _ => none, id⟩ :
        Lc0.EngineEnv Nat)
      ⟨1, 0, "", true, false, 0⟩
      ⟨none, none, none, none, none, none, none, none, false, true, []⟩
      ⟨0, ⟨0, []⟩, none, none, 0, some ⟨"f", ["a", "b"]⟩,
        ⟨none, none, none, none, none, none, none, none, false, false, []⟩,
        none, none, "", none, []⟩).search =
      some { searchmoves := [], startTime := 0, infinite := true,
             threads := 1 } ∧
    (Lc0.Go (⟨0, fun t _ _ => (t + 1, false), fun _ => none, id⟩ :
        Lc0.EngineEnv Nat)
      ⟨1, 0, "", true, false, 0⟩
      ⟨none, none, none, none, none, none, none, none, false, true, []⟩
      ⟨0, ⟨0, []⟩, none, none, 0, some ⟨"f", ["a", "b"]⟩,
        ⟨none, none, none, none, none, none, none, none, false, false, []⟩,
        none, none, "", none, []⟩).tree = some 1 ∧
    Lc0.EngineEvent.resetToPosition "f" ["a"] ∈
      (Lc0.Go (⟨0, fun t _ _ => (t + 1, false), fun _ => none, id⟩ :
          Lc0.EngineEnv Nat)
        ⟨1, 0, "", true, false, 0⟩
        ⟨none, none, none, none, none, none, none, none, false, true, []⟩
        ⟨0, ⟨0, []⟩, none, none, 0, some ⟨"f", ["a", "b"]⟩,
          ⟨none, none, none, none, none, none, none, none, false, false, []⟩,
          none, none, "", none, []⟩).events :=
  have h := go_ponder_pops_last_move
    (⟨0, fun t _ _ => (t + 1, false), fun _ => none, id⟩ : Lc0.EngineEnv Nat)
    ⟨1, 0, "", true, false, 0⟩
    ⟨none, none, none, none, none, none, none, none, false, true, []⟩
    ⟨"f", ["a", "b"]⟩
    ⟨0, ⟨0, []⟩, none, none, 0, some ⟨"f", ["a", "b"]⟩,
      ⟨none, none, none, none, none, none, none, none, false, false, []⟩,
      none, none, "", none, []⟩
    rfl (List.cons_ne_nil _ _) rfl
  ⟨h.2.2.1, h.1, h.2.1⟩

/-- Witness for C3 at a concrete instantiation: the oracle reports the same
game, so no reset event is appended and the bank keeps its value 37. -/
theorem setupPosition_resetGame_iff_witness :
    ((Lc0.SetupPosition (⟨0, fun t _ _ => (t + 1, true), fun _ => none, id⟩ :
        Lc0.EngineEnv Nat)
      ⟨1, 0, "", true, false, 0⟩ "f" ["a"]
      ⟨0, ⟨0, []⟩, none, some 5, 37, none,
        ⟨none, none, none, none, none, none, none, none, false, false, []⟩,
        none, none, "", none, []⟩).events =
      [Lc0.EngineEvent.resetToPosition "f" ["a"]]) ∧
    ((Lc0.SetupPosition (⟨0, fun t _ _ => (t + 1, true), fun _ => none, id⟩ :
        Lc0.EngineEnv Nat)
      ⟨1, 0, "", true, false, 0⟩ "f" ["a"]
      ⟨0, ⟨0, []⟩, none, some 5, 37, none,
        ⟨none, none, none, none, none, none, none, none, false, false, []⟩,
        none, none, "", none, []⟩).timeSparedMs = 37) :=
  have h := setupPosition_resetGame_iff_not_same_game
    (⟨0, fun t _ _ => (t + 1, true), fun _ => none, id⟩ : Lc0.EngineEnv Nat)
    ⟨1, 0, "", true, false, 0⟩ "f" ["a"]
    ⟨0, ⟨0, []⟩, none, some 5, 37, none,
      ⟨none, none, none, none, none, none, none, none, false, false, []⟩,
      none, none, "", none, []⟩
  ⟨h.1, h.2.1 rfl⟩

/-- C5: `EngineController::SetPosition` only stashes the position, restarts
the move timer and drops the current search; tree, cache, network, network
configuration, time-manager bank, tablebase state and the call trace are
untouched, and the tree reset (a `resetToPosition` call) happens only at
the following `Go`. -/
theorem setPosition_frame_effect {Tree : Type} (now : Nat) (fen : String)
    (moves_str : List String) (s : Lc0.EngineState Tree) :
    (Lc0.SetPosition now fen moves_str s).currentPosition =
      some ⟨fen, moves_str⟩ ∧
    (Lc0.SetPosition now fen moves_str s).moveStartTime = now ∧
    (Lc0.SetPosition now fen moves_str s).search = none ∧
    (Lc0.SetPosition now fen moves_str s).tree = s.tree ∧
    (Lc0.SetPosition now fen moves_str s).cache = s.cache ∧
    (Lc0.SetPosition now fen moves_str s).network = s.network ∧
    (Lc0.SetPosition now fen moves_str s).networkConfig = s.networkConfig ∧
    (Lc0.SetPosition now fen moves_str s).timeSparedMs = s.timeSparedMs ∧
    (Lc0.SetPosition now fen moves_str s).tbPaths = s.tbPaths ∧
    (Lc0.SetPosition now fen moves_str s).syzygyTb = s.syzygyTb ∧
    (Lc0.SetPosition now fen moves_str s).events = s.events ∧
    (∀ (env : Lc0.EngineEnv Tree) (opts : Lc0.EngineOptions)
        (params : Lc0.GoParams), params.ponder = false →
      Lc0.EngineEvent.resetToPosition fen moves_str ∈
        (Lc0.Go env opts params (Lc0.SetPosition now fen moves_str s)).events) := by
  refine ⟨rfl, rfl, rfl, rfl, rfl, rfl, rfl, rfl, rfl, rfl, rfl, ?_⟩
  intro env opts params hp
  rw [Lc0.go_of_no_ponder env opts params ⟨fen, moves_str⟩
    (Lc0.SetPosition now fen moves_str s) rfl hp]
  dsimp only
  rw [Lc0.setupPosition_events]
  simp

/-- Witness for C5 at a concrete instantiation. -/
theorem setPosition_frame_effect_witness :
    ((Lc0.SetPosition 9 "f" ["a"]
      (⟨0, ⟨0, []⟩, none, some 5, 37, none,
        ⟨none, none, none, none, none, none, none, none, false, false, []⟩,
        none, none, "", none, []⟩ : Lc0.EngineState Nat)).tree = some 5) ∧
    ((Lc0.SetPosition 9 "f" ["a"]
      (⟨0, ⟨0, []⟩, none, some 5, 37, none,
        ⟨none, none, none, none, none, none, none, none, false, false, []⟩,
        none, none, "", none, []⟩ : Lc0.EngineState Nat)).events = []) ∧
    Lc0.EngineEvent.resetToPosition "f" ["a"] ∈
      (Lc0.Go (⟨0, fun t _ _ => (t + 1, true), fun _ => none, id⟩ :
          Lc0.EngineEnv Nat)
        ⟨1, 0, "", true, false, 0⟩
        ⟨none, none, none, none, none, none, none, none, false, false, []⟩
        (Lc0.SetPosition 9 "f" ["a"]
          (⟨0, ⟨0, []⟩, none, some 5, 37, none,
            ⟨none, none, none, none, none, none, none, none, false, false, []⟩,
            none, none, "", none, []⟩ : Lc0.EngineState Nat))).events :=
  have h := setPosition_frame_effect 9 "f" ["a"]
    (⟨0, ⟨0, []⟩, none, some 5, 37, none,
      ⟨none, none, none, none, none, none, none, none, false, false, []⟩,
      none, none, "", none, []⟩ : Lc0.EngineState Nat)
  ⟨h.2.2.2.1, h.2.2.2.2.2.2.2.2.2.2.1,
    h.2.2.2.2.2.2.2.2.2.2.2
      (⟨0, fun t _ _ => (t + 1, true), fun _ => none, id⟩ : Lc0.EngineEnv Nat)
      ⟨1, 0, "", true, false, 0⟩
      ⟨none, none, none, none, none, none, none, none, false, false, []⟩ rfl⟩

/-- C8: two option dictionaries that differ only in the `Ponder` value give
identical controller behaviour — `NewGame`, `SetupPosition`, `Go` and
`PonderHit` produce equal states, and the castling-conversion callback
wrappers agree — while `PopulateOptions` does register `Ponder` so GUIs see
it. -/
theorem ponder_option_never_read {Tree : Type} (o1 o2 : Lc0.EngineOptions)
    (hagree : Lc0.OptionsAgreeExceptPonder o1 o2) :
    (∀ (env : Lc0.EngineEnv Tree) (now : Nat) (s : Lc0.EngineState Tree),
      Lc0.NewGame env o1 now s = Lc0.NewGame env o2 now s) ∧
    (∀ (env : Lc0.EngineEnv Tree) (fen : String) (moves_str : List String)
        (s : Lc0.EngineState Tree),
      Lc0.SetupPosition env o1 fen moves_str s =
        Lc0.SetupPosition env o2 fen moves_str s) ∧
    (∀ (env : Lc0.EngineEnv Tree) (params : Lc0.GoParams)
        (s : Lc0.EngineState Tree),
      Lc0.Go env o1 params s = Lc0.Go env o2 params s) ∧
    (∀ (env : Lc0.EngineEnv Tree) (now : Nat) (s : Lc0.EngineState Tree),
      Lc0.PonderHit env o1 now s = Lc0.PonderHit env o2 now s) ∧
    (∀ networkOpts searchOpts configOpts timeOpts,
      "Ponder" ∈
        Lc0.PopulateOptions networkOpts searchOpts configOpts timeOpts) := by
  obtain ⟨ht, hn, hs, hc, hb⟩ := hagree
  obtain ⟨t1, n1, sy1, p1, c1, b1⟩ := o1
  obtain ⟨t2, n2, sy2, p2, c2, b2⟩ := o2
  simp only at ht hn hs hc hb
  subst ht
  subst hn
  subst hs
  subst hc
  subst hb
  refine ⟨fun _ _ _ => rfl, fun _ _ _ _ => rfl, fun _ _ _ => rfl,
    fun _ _ _ => rfl, ?_⟩
  intro networkOpts searchOpts configOpts timeOpts
  simp [Lc0.PopulateOptions]

/-- Witness for C8: the default options with `Ponder` true versus false. -/
theorem ponder_option_never_read_witness :
    (∀ (env : Lc0.EngineEnv Nat) (now : Nat) (s : Lc0.EngineState Nat),
      Lc0.NewGame env ⟨2, 200000, "", true, false, 7⟩ now s =
        Lc0.NewGame env ⟨2, 200000, "", false, false, 7⟩ now s) ∧
    (∀ (env : Lc0.EngineEnv Nat) (fen : String) (moves_str : List String)
        (s : Lc0.EngineState Nat),
      Lc0.SetupPosition env ⟨2, 200000, "", true, false, 7⟩ fen moves_str s =
        Lc0.SetupPosition env ⟨2, 200000, "", false, false, 7⟩ fen moves_str s) ∧
    (∀ (env : Lc0.EngineEnv Nat) (params : Lc0.GoParams)
        (s : Lc0.EngineState Nat),
      Lc0.Go env ⟨2, 200000, "", true, false, 7⟩ params s =
        Lc0.Go env ⟨2, 200000, "", false, false, 7⟩ params s) ∧
    (∀ (env : Lc0.EngineEnv Nat) (now : Nat) (s : Lc0.EngineState Nat),
      Lc0.PonderHit env ⟨2, 200000, "", true, false, 7⟩ now s =
        Lc0.PonderHit env ⟨2, 200000, "", false, false, 7⟩ now s) ∧
    (∀ networkOpts searchOpts configOpts timeOpts,
      "Ponder" ∈
        Lc0.PopulateOptions networkOpts searchOpts configOpts timeOpts) :=
  ponder_option_never_read ⟨2, 200000, "", true, false, 7⟩
    ⟨2, 200000, "", false, false, 7⟩ ⟨rfl, rfl, rfl, rfl, rfl⟩

/-- C6: with `UCI_Chess960` false the `Go`-installed wrappers pass the
bestmove/ponder pair and every PV through `ConvertToLegacyCastling` against
the head board before the underlying callbacks fire; with the option true
the moves reach the callbacks unconverted. -/
theorem chess960_castling_conversion {Board Move A B : Type}
    (ops : Lc0.BoardOps Board Move) (head_board : Board)
    (cb : Lc0.BestMoveInfo Move → A) (icb : List (Lc0.ThinkingInfo Move) → B)
    (best_move : Lc0.BestMoveInfo Move)
    (info : List (Lc0.ThinkingInfo Move)) :
    (∃ b p, Lc0.ConvertToLegacyCastling ops head_board
        [best_move.bestmove, best_move.ponder] = [b, p] ∧
      Lc0.goBestMoveCallback ops false head_board cb best_move =
        cb { bestmove := b, ponder := p }) ∧
    Lc0.goBestMoveCallback ops true head_board cb best_move = cb best_move ∧
    Lc0.goInfoCallback ops false head_board icb info =
      icb (info.map fun x =>
        { x with pv := Lc0.ConvertToLegacyCastling ops head_board x.pv }) ∧
    Lc0.goInfoCallback ops true head_board icb info = icb info := by
  refine ⟨⟨_, _, rfl, rfl⟩, rfl, rfl, rfl⟩

/-- C7 (amended): `LoadWeightsFromFile` yields an `lczero::Exception`
exactly when the file could not be read or decompressed, the buffer is
shorter than 2 bytes, it starts with an obsolete text header `1\n` or
`2\n`, the protobuf magic differs from `0x1c0`, the version derived from
`min_version` exceeds the running lc0 version and is not the compatible
signature `0x5c99973`, or the (fixed) message has weights whose encoding is
not `LINEAR16`; and the `lc0ctl` main exits 1 on such an exception and 0
otherwise. -/
theorem loadWeights_error_iff (fixO : Lc0.ParsedNet → Lc0.ParsedNet)
    (gvi : Lc0.MinVersion → Nat) (lc0Version : Nat)
    (decompressed : Except Lc0.LoadError Lc0.GzBuffer) :
    ((∃ e, Lc0.LoadWeightsFromFile fixO gvi lc0Version decompressed =
        .error e) ↔
      ((∃ e, decompressed = .error e) ∨
       (∃ buf, decompressed = .ok buf ∧
         (buf.bytes.length < 2 ∨
          (buf.bytes.getD 0 0 = 49 ∧ buf.bytes.getD 1 0 = 10) ∨
          (buf.bytes.getD 0 0 = 50 ∧ buf.bytes.getD 1 0 = 10) ∨
          buf.parsed.magic ≠ Lc0.kWeightMagic ∨
          (gvi buf.parsed.min_version ≠ Lc0.kCompatibleVersion ∧
            gvi buf.parsed.min_version > lc0Version) ∨
          ((fixO buf.parsed).has_weights ∧
            (fixO buf.parsed).weights_encoding ≠ Lc0.kLinear16))))) ∧
    (∀ e, Lc0.lc0ctlMain (.error e) = 1) ∧
    Lc0.lc0ctlMain (.ok ()) = 0 := by
  refine ⟨?_, fun e => rfl, rfl⟩
  cases decompressed with
  | error e => simp [Lc0.LoadWeightsFromFile]
  | ok buf =>
    simp only [Lc0.LoadWeightsFromFile, Lc0.ParseWeightsProto]
    split_ifs with h1 h2 h3 h4 h5 h6 <;> simp_all

/-- C7 counterexample to the claim as stated: a well-formed buffer whose
parsed message has no weights and an encoding different from `LINEAR16`
(`weights_encoding = 0`) loads without an exception, because the source
guards the encoding check with `net.has_weights()`; so "throws when the
weights encoding is not LINEAR16" does not hold unconditionally. -/
theorem loadWeights_encoding_check_needs_weights :
    Lc0.LoadWeightsFromFile id (fun _ => 0) 100
        (.ok ⟨[13, 0], ⟨0x1c0, ⟨0, 0, 0⟩, false, 0⟩⟩) =
      .ok ⟨0x1c0, ⟨0, 0, 0⟩, false, 0⟩ ∧
    (⟨0x1c0, ⟨0, 0, 0⟩, false, 0⟩ : Lc0.ParsedNet).weights_encoding ≠
      Lc0.kLinear16 ∧
    (⟨0x1c0, ⟨0, 0, 0⟩, false, 0⟩ : Lc0.ParsedNet).magic = Lc0.kWeightMagic ∧
    ¬ (([13, 0] : List Nat).length < 2) := by
  refine ⟨rfl, ?_, rfl, ?_⟩ <;> decide

namespace Lc0

namespace BlasComputation

lemma addInputs_eq {Plane Policy Q : Type} (c : BlasComputation Plane Policy Q)
    (inputs : List Plane) :
    addInputs c inputs = { c with planes := c.planes ++ inputs } := by
  induction inputs generalizing c with
  | nil => simp [addInputs]
  | cons i is ih =>
    show addInputs (AddInput c i) is = _
    rw [ih]
    simp [AddInput]

lemma computeChunks_eq_map {Plane Policy Q : Type} (evalP : Plane → Policy)
    (evalQ : Plane → Q) (b : Nat) (hb : b ≠ 0) :
    ∀ (n : Nat) (planes : List Plane), planes.length ≤ n →
      computeChunks evalP evalQ b planes =
        some (planes.map evalP, planes.map evalQ) := by
  intro n
  induction n with
  | zero =>
    intro planes hle
    cases planes with
    | nil =>
      rw [computeChunks]
      rfl
    | cons p ps => simp at hle
  | succ n ih =>
    intro planes hle
    cases planes with
    | nil =>
      rw [computeChunks]
      rfl
    | cons p ps =>
      rw [computeChunks, dif_neg hb]
      have hrec := ih ((p :: ps).drop b)
        (by simp only [List.length_drop, List.length_cons] at *; omega)
      rw [hrec]
      have hsplit :
          ((p :: ps).take b).map evalP ++ ((p :: ps).drop b).map evalP =
            (p :: ps).map evalP := by
        rw [← List.map_append, List.take_append_drop]
      have hsplitQ :
          ((p :: ps).take b).map evalQ ++ ((p :: ps).drop b).map evalQ =
            (p :: ps).map evalQ := by
        rw [← List.map_append, List.take_append_drop]
      dsimp only
      rw [hsplit, hsplitQ]

end BlasComputation

end Lc0

/-- C10: after `n` `AddInput` calls and with any `max_batch_size ≥ 1`,
`GetBatchSize` returns `n`, and `ComputeBlocking` terminates holding
exactly one Q value and one policy vector per added input, in input order
(`inputs.map evalQ` / `inputs.map evalPolicy`); the outputs do not depend
on how the inputs were split into chunks (any two batch sizes ≥ 1 agree). -/
theorem blas_computation_per_input_outputs {Plane Policy Q : Type}
    (evalPolicy : Plane → Policy) (evalQ : Plane → Q) (max_batch_size : Nat)
    (hmax : 1 ≤ max_batch_size) (inputs : List Plane) :
    (Lc0.BlasComputation.addInputs
      (Lc0.BlasComputation.new max_batch_size :
        Lc0.BlasComputation Plane Policy Q) inputs).GetBatchSize =
      inputs.length ∧
    Lc0.BlasComputation.ComputeBlocking evalPolicy evalQ
        (Lc0.BlasComputation.addInputs
          (Lc0.BlasComputation.new max_batch_size) inputs) =
      some { max_batch_size := max_batch_size, planes := inputs,
             policy_data := inputs.map evalPolicy,
             q_value := inputs.map evalQ } ∧
    (∀ other_batch_size, 1 ≤ other_batch_size →
      (Lc0.BlasComputation.ComputeBlocking evalPolicy evalQ
        (Lc0.BlasComputation.addInputs
          (Lc0.BlasComputation.new other_batch_size) inputs)).map
            (fun c => (c.policy_data, c.q_value)) =
      (Lc0.BlasComputation.ComputeBlocking evalPolicy evalQ
        (Lc0.BlasComputation.addInputs
          (Lc0.BlasComputation.new max_batch_size) inputs)).map
            (fun c => (c.policy_data, c.q_value))) := by
  have hcompute : ∀ (m : Nat), 1 ≤ m →
      Lc0.BlasComputation.ComputeBlocking evalPolicy evalQ
        (Lc0.BlasComputation.addInputs (Lc0.BlasComputation.new m) inputs) =
      some { max_batch_size := m, planes := inputs,
             policy_data := inputs.map evalPolicy,
             q_value := inputs.map evalQ } := by
    intro m hm
    rw [Lc0.BlasComputation.addInputs_eq]
    cases inputs with
    | nil =>
      unfold Lc0.BlasComputation.ComputeBlocking
      dsimp only [Lc0.BlasComputation.new, List.nil_append]
      rw [Lc0.BlasComputation.computeChunks]
      rfl
    | cons p ps =>
      unfold Lc0.BlasComputation.ComputeBlocking
      dsimp only [Lc0.BlasComputation.new, List.nil_append]
      have hb : min m (p :: ps).length ≠ 0 := by
        simp only [List.length_cons]
        omega
      rw [Lc0.BlasComputation.computeChunks_eq_map evalPolicy evalQ _ hb
        (p :: ps).length (p :: ps) le_rfl]
  refine ⟨?_, hcompute max_batch_size hmax, ?_⟩
  · rw [Lc0.BlasComputation.addInputs_eq]
    simp [Lc0.BlasComputation.GetBatchSize, Lc0.BlasComputation.new]
  · intro other_batch_size hm2
    rw [hcompute other_batch_size hm2, hcompute max_batch_size hmax]
    rfl

/-- Witness for C10 at a concrete instantiation: three inputs, batch size
2 (chunks of 2 then 1), outputs in input order. -/
theorem blas_computation_per_input_outputs_witness :
    (Lc0.BlasComputation.addInputs
      (Lc0.BlasComputation.new 2 : Lc0.BlasComputation Nat Nat Nat)
      [10, 20, 30]).GetBatchSize = 3 ∧
    Lc0.BlasComputation.ComputeBlocking (fun p => p + 1) (fun p => p * 2)
        (Lc0.BlasComputation.addInputs (Lc0.BlasComputation.new 2)
          [10, 20, 30]) =
      some { max_batch_size := 2, planes := [10, 20, 30],
             policy_data := [11, 21, 31], q_value := [20, 40, 60] } ∧
    (Lc0.BlasComputation.ComputeBlocking (fun p => p + 1) (fun p => p * 2)
      (Lc0.BlasComputation.addInputs (Lc0.BlasComputation.new 1)
        [10, 20, 30])).map (fun c => (c.policy_data, c.q_value)) =
    (Lc0.BlasComputation.ComputeBlocking (fun p => p + 1) (fun p => p * 2)
      (Lc0.BlasComputation.addInputs (Lc0.BlasComputation.new 2)
        [10, 20, 30])).map (fun c => (c.policy_data, c.q_value)) :=
  have h := blas_computation_per_input_outputs (fun p => p + 1)
    (fun p => p * 2) 2 (by decide) [10, 20, 30]
  ⟨h.1, h.2.1, h.2.2 1 (by decide)⟩
